import Mathlib

/-!
Verification of the `spectral-report.mjs` lint-report wrapper
(repository `lousy-api-eval`), shallowly embedded in Lean.

The embedding follows `src/scripts/spectral-report.mjs` (the current
version of the script): findings parsed from the linter's JSON output,
per-rule grouping and truncation in `summarize`, the spec-file discovery
walk (`SPEC_PATTERNS`, `processEntry`, `findSpecs`), the subprocess
error-channel disambiguation in `lintSpec`, and the main pipeline that
emits the report and sets the exit code.
-/

namespace SpectralReport

/-- One finding record from the linter's JSON output: `code`, `severity`
(0=error .. 3=hint), `path` segments, `message`, and the optional
`range.start.line` (`none` models a missing or non-numeric value). -/
structure Finding where
  code : String
  severity : Nat
  path : List String
  message : String
  rangeStartLine : Option Nat
deriving DecidableEq

/-- One location entry inside a rule group, as built in `summarize`:
`path` joined with ".", `line` (explicit `null` modelled as `none`), and
the finding's message. -/
structure Location where
  path : String
  line : Option Nat
  message : String
deriving DecidableEq

/-- The per-rule accumulator of `summarize`'s `byRule` object:
`count`, the `severity` of the first finding seen for the rule, and the
full (untruncated) list of locations. -/
structure RuleGroupAcc where
  count : Nat
  severity : Nat
  locations : List Location
deriving DecidableEq

/-- The location record pushed for one finding (`spectral-report.mjs`
lines 228-235): `v.path.join(".")`, 1-based line when present else null,
and the message. -/
def mkLocation (v : Finding) : Location :=
  { path := String.intercalate "." v.path
    line := v.rangeStartLine.map (· + 1)
    message := v.message }

/-- One step of the `for (const v of violations)` loop of `summarize`:
create the rule's entry on first sight (object key insertion order, so
new rules are appended at the end), then increment `count` and push the
location. -/
def bump (v : Finding) : List (String × RuleGroupAcc) → List (String × RuleGroupAcc)
  | [] => [(v.code, ⟨1, v.severity, [mkLocation v]⟩)]
  | (k, g) :: rest =>
    if k = v.code then
      (k, ⟨g.count + 1, g.severity, g.locations ++ [mkLocation v]⟩) :: rest
    else
      (k, g) :: bump v rest

/-- The `byRule` association built by `summarize`'s grouping loop, one
entry per rule code in property-creation (first-encounter) order; the
JS key enumeration order that `Object.entries` applies on top of this
is modelled separately by `entriesOrder`. -/
def groupByRule (vs : List Finding) : List (String × RuleGroupAcc) :=
  vs.foldl (fun acc v => bump v acc) []

/-- Numeric value of a digit string (most significant digit first). -/
def digitsVal (cs : List Char) : Nat :=
  cs.foldl (fun acc c => acc * 10 + (c.toNat - 48)) 0

/-- Whether a property key is an array index in the ECMAScript sense: a
canonical numeric string (digits only, no leading zero except "0"
itself) whose value is at most 2^32 - 2. Such keys are enumerated
before all other string keys. -/
def isCanonicalIndex (s : String) : Bool :=
  match s.data with
  | [] => false
  | c :: cs =>
    (c :: cs).all (fun d => d.isDigit) &&
    (c != '0' || cs.isEmpty) &&
    digitsVal (c :: cs) < 4294967295

/-- Numeric value of a key (used to order array-index-like keys). -/
def keyVal (s : String) : Nat :=
  digitsVal s.data

/-- Ascending numeric order on array-index-like keys. -/
def idxRel (a b : String × RuleGroupAcc) : Prop :=
  keyVal a.1 ≤ keyVal b.1

instance : DecidableRel idxRel := fun a b =>
  inferInstanceAs (Decidable (keyVal a.1 ≤ keyVal b.1))

/-- The `Object.entries(byRule)` enumeration order mandated by
ECMAScript `OrdinaryOwnPropertyKeys`: array-index-like keys first, in
ascending numeric order, then the remaining string keys in property
creation order. -/
def entriesOrder (l : List (String × RuleGroupAcc)) : List (String × RuleGroupAcc) :=
  (l.filter (fun e => isCanonicalIndex e.1)).insertionSort idxRel ++
    l.filter (fun e => !isCanonicalIndex e.1)

/-- The `SEVERITY_LABELS[s] ?? "unknown"` lookup. -/
def severityLabel (s : Nat) : String :=
  if s = 0 then "error"
  else if s = 1 then "warning"
  else if s = 2 then "info"
  else if s = 3 then "hint"
  else "unknown"

/-- One emitted entry of `ruleBreakdown`. `truncated` is the optional
`"N more"` string. -/
structure RuleGroup where
  rule : String
  severity : String
  count : Nat
  locations : List Location
  truncated : Option String
deriving DecidableEq

/-- The `.map(([rule, data]) => ...)` step of `summarize`: label the
severity, cap locations at 5, and attach `truncated` when more than 5
locations were collected. -/
def mkRuleGroup (e : String × RuleGroupAcc) : RuleGroup :=
  { rule := e.1
    severity := severityLabel e.2.severity
    count := e.2.count
    locations := e.2.locations.take 5
    truncated :=
      if 5 < e.2.locations.length then
        some (toString (e.2.locations.length - 5) ++ " more")
      else
        none }

/-- The JS comparator `a.severity - b.severity || b.count - a.count`
(the second operand is used exactly when the first is 0). -/
def cmpGroups (a b : String × RuleGroupAcc) : Int :=
  if (a.2.severity : Int) - (b.2.severity : Int) = 0 then
    (b.2.count : Int) - (a.2.count : Int)
  else
    (a.2.severity : Int) - (b.2.severity : Int)

/-- The ordering induced by the comparator: `a` may stay before `b`
exactly when the comparator is nonpositive. -/
def groupRel (a b : String × RuleGroupAcc) : Prop :=
  cmpGroups a b ≤ 0

instance : DecidableRel groupRel := fun a b => inferInstanceAs (Decidable (cmpGroups a b ≤ 0))

instance : IsTotal (String × RuleGroupAcc) groupRel :=
  ⟨fun a b => by unfold groupRel cmpGroups; split_ifs <;> omega⟩

instance : IsTrans (String × RuleGroupAcc) groupRel :=
  ⟨fun a b c hab hbc => by
    unfold groupRel cmpGroups at *
    split_ifs at * <;> omega⟩

/-- The `Object.entries(byRule).sort(...)` pipeline: entries are read
in JS enumeration order and then sorted. JS `Array.prototype.sort` is
required to be stable, and for the consistent comparator above a stable
sort's output is determined by sortedness plus stability;
`List.insertionSort` is such a stable sort. -/
def sortedGroups (vs : List Finding) : List (String × RuleGroupAcc) :=
  (entriesOrder (groupByRule vs)).insertionSort groupRel

/-- The `counts` object of a `FileReport`. -/
structure Counts where
  errors : Nat
  warnings : Nat
  total : Nat
deriving DecidableEq

/-- The per-file report object returned by `summarize`. -/
structure FileReport where
  spec : String
  pass : Bool
  counts : Counts
  ruleBreakdown : List RuleGroup
deriving DecidableEq

/-- The `summarize(specPath, violations)` function (lines 217-258). -/
def summarize (specPath : String) (violations : List Finding) : FileReport :=
  let errors := violations.filter (fun v => v.severity == 0)
  let warnings := violations.filter (fun v => v.severity == 1)
  { spec := specPath
    pass := errors.length == 0
    counts := ⟨errors.length, warnings.length, violations.length⟩
    ruleBreakdown := (sortedGroups violations).map mkRuleGroup }

/-- The top-level document `{ allPass, results }`. -/
structure Report where
  allPass : Bool
  results : List FileReport
deriving DecidableEq

/-- The report-emitting tail of `main` (lines 272-282), applied to the
spec paths with their (successfully parsed) findings: the results list,
`allPass = results.every(r => r.pass)`, and the process exit code
`allPass ? 0 : 1`. -/
def runReport (inputs : List (String × List Finding)) : Report × Nat :=
  let results := inputs.map (fun pv => summarize pv.1 pv.2)
  let allPass := results.all (fun r => r.pass)
  ({ allPass := allPass, results := results }, if allPass then 0 else 1)

/-- Outcome of the `execFileSync` call inside `lintSpec`: normal exit
with captured stdout, nonzero exit whose error object carries the
captured stdout (possibly empty), or an error object with no captured
stdout (e.g. the binary could not be started). -/
inductive ExecResult where
  | ok (stdout : String)
  | failWithOutput (stdout : String)
  | failNoStart
deriving DecidableEq

/-- The `lintSpec` function (lines 192-215), over an abstract JSON
parser `parse` (modelling `JSON.parse`, `none` = throws):
on normal exit parse `raw || "[]"`, a parse failure there escapes (the
`SyntaxError` has no `stdout` property, so the catch rethrows);
on nonzero exit parse `err.stdout` when it is nonempty, rethrowing the
error when that parse fails or when no stdout was captured. -/
def lintSpec (parse : String → Option (List Finding)) : ExecResult → Except Unit (List Finding)
  | .ok raw =>
    match parse (if raw = "" then "[]" else raw) with
    | some vs => .ok vs
    | none => .error ()
  | .failWithOutput out =>
    if out = "" then .error ()
    else
      match parse out with
      | some vs => .ok vs
      | none => .error ()
  | .failNoStart => .error ()

/-- The `specs.map(spec => lintSpec(spec))` part of `main`, evaluated
left to right: the first exception thrown by a `lintSpec` call
propagates out of the whole map. -/
def collectFindings (parse : String → Option (List Finding)) :
    List (String × ExecResult) → Except Unit (List (String × List Finding))
  | [] => .ok []
  | pr :: rest =>
    match lintSpec parse pr.2 with
    | .error e => .error e
    | .ok vs =>
      match collectFindings parse rest with
      | .error e => .error e
      | .ok pairs => .ok ((pr.1, vs) :: pairs)

/-- The whole `main` pipeline over already-run subprocesses: lint every
spec, and only if no invocation failed emit the report and exit code; a
propagated `lintSpec` failure yields no structured report at all. -/
def runPipeline (parse : String → Option (List Finding))
    (inputs : List (String × ExecResult)) : Except Unit (Report × Nat) :=
  (collectFindings parse inputs).map runReport

/-- Observable outcome of one `main` invocation: the structured document
printed to stdout (if any), whether the "no specs found" diagnostic went
to stderr, and the exit code. -/
structure ProcOutcome where
  stdoutDoc : Option Report
  usedStderrHint : Bool
  exitCode : Nat
deriving DecidableEq

/-- The `main` control flow (lines 264-282) given the discovered specs
with their findings: with zero specs, print the diagnostic to stderr and
`process.exit(0)` (nothing reaches stdout); otherwise print the report
document and exit `allPass ? 0 : 1`. -/
def mainRun (inputs : List (String × List Finding)) : ProcOutcome :=
  if inputs.length = 0 then
    { stdoutDoc := none, usedStderrHint := true, exitCode := 0 }
  else
    let rc := runReport inputs
    { stdoutDoc := some rc.1, usedStderrHint := false, exitCode := rc.2 }

/-- Suffix test on strings by their character lists (the effect of an
end-anchored literal regex match). -/
def strEndsWith (s suffix : String) : Bool :=
  suffix.data.isSuffixOf s.data

/-- Prefix test on strings by their character lists (the effect of
`String.prototype.startsWith`). -/
def strStartsWith (s pre : String) : Bool :=
  pre.data.isPrefixOf s.data

/-- The `SPEC_PATTERNS.some(p => p.test(filename))` check:
`/\.openapi\.ya?ml$/`, `/\.openapi\.json$/`, `/^openapi\.ya?ml$/`,
`/^openapi\.json$/` (the `a?` makes both `yaml` and `yml` match). -/
def isSpecFile (filename : String) : Bool :=
  (strEndsWith filename ".openapi.yaml" || strEndsWith filename ".openapi.yml") ||
  strEndsWith filename ".openapi.json" ||
  (filename == "openapi.yaml" || filename == "openapi.yml") ||
  filename == "openapi.json"

/-- A directory tree entry: a plain file or a directory with its
`readdirSync` listing. -/
inductive FSEntry where
  | file (name : String)
  | dir (name : String) (entries : List FSEntry)

/-- Name of a tree entry. -/
def FSEntry.name : FSEntry → String
  | .file n => n
  | .dir n _ => n

/-- The `join(dir, entry)` path concatenation. -/
def joinPath (dir entry : String) : String :=
  dir ++ "/" ++ entry

mutual

/-- The `processEntry(dir, entry, depth)` function: skip dotfiles and
`node_modules`, return a matching file as a candidate, recurse into a
directory with one less depth. -/
def processEntry (dir : String) (e : FSEntry) (depth : Nat) : List String :=
  if strStartsWith e.name "." || e.name == "node_modules" then []
  else
    match e with
    | .file n => if isSpecFile n then [joinPath dir n] else []
    | .dir n sub => findSpecs (joinPath dir n) (depth - 1) sub
termination_by depth + sizeOf e

/-- The `findSpecs(dir, depth)` traversal over the directory's listing
(`readdirSync(dir).flatMap(...)`, written as explicit list recursion):
an exhausted depth budget yields no candidates. -/
def findSpecs (dir : String) (depth : Nat) (entries : List FSEntry) : List String :=
  if depth = 0 then []
  else
    match entries with
    | [] => []
    | e :: rest => processEntry dir e depth ++ findSpecs dir depth rest
termination_by depth + sizeOf entries

end

/-- The four filename patterns as the specification words them: ends
with `.openapi.yaml`, ends with `.openapi.json`, is exactly
`openapi.yaml`, or is exactly `openapi.json`. -/
def specWordedPatterns (filename : String) : Bool :=
  strEndsWith filename ".openapi.yaml" ||
  strEndsWith filename ".openapi.json" ||
  filename == "openapi.yaml" ||
  filename == "openapi.json"

/-- Association lookup in the `byRule` accumulator (by rule key). -/
def lookG (acc : List (String × RuleGroupAcc)) (k : String) : Option RuleGroupAcc :=
  match acc with
  | [] => none
  | (k', g) :: rest => if k' = k then some g else lookG rest k

/-- Closed form of the group that `summarize`'s loop builds for rule
`k`: the findings with that code, in order; count is their number,
severity comes from the first, locations are all of them. -/
def groupOf (vs : List Finding) (k : String) : Option RuleGroupAcc :=
  match vs.filter (fun v => v.code == k) with
  | [] => none
  | w :: ws => some ⟨(w :: ws).length, w.severity, (w :: ws).map mkLocation⟩

/-- A minimal model of `JSON.parse` adequate for concrete runs: parses
the array `[]`, throws (`none`) on everything else — in particular on
the empty string, as `JSON.parse("")` does. -/
def jsonParseStub : String → Option (List Finding) :=
  fun s => if s = "[]" then some [] else none

/-! Helper lemmas about the grouping loop. -/

theorem groupByRule_concat (vs : List Finding) (v : Finding) :
    groupByRule (vs ++ [v]) = bump v (groupByRule vs) := by
  simp [groupByRule, List.foldl_append]

theorem lookG_bump (v : Finding) (acc : List (String × RuleGroupAcc)) (k : String) :
    lookG (bump v acc) k =
      if k = v.code then
        some (match lookG acc v.code with
              | some g => ⟨g.count + 1, g.severity, g.locations ++ [mkLocation v]⟩
              | none => ⟨1, v.severity, [mkLocation v]⟩)
      else lookG acc k := by
  induction acc with
  | nil =>
    by_cases h : k = v.code
    · subst h; simp [bump, lookG]
    · simp [bump, lookG, h, Ne.symm h]
  | cons hd tl ih =>
    obtain ⟨k', g⟩ := hd
    by_cases h1 : k' = v.code
    · subst h1
      by_cases h2 : k = v.code
      · subst h2; simp [bump, lookG]
      · simp [bump, lookG, h2, Ne.symm h2]
    · by_cases h2 : k' = k
      · subst h2
        simp [bump, lookG, h1]
      · simp [bump, lookG, h1, h2, ih]

theorem lookG_groupByRule (vs : List Finding) (k : String) :
    lookG (groupByRule vs) k = groupOf vs k := by
  induction vs using List.reverseRecOn with
  | nil => rfl
  | append_singleton l v ih =>
    rw [groupByRule_concat, lookG_bump]
    by_cases hk : k = v.code
    · rw [if_pos hk, ← hk, ih]
      have hfv : [v].filter (fun w => w.code == k) = [v] := by simp [hk.symm]
      unfold groupOf
      rw [List.filter_append, hfv]
      cases hf : l.filter (fun w => w.code == k) with
      | nil => simp
      | cons w ws => simp
    · have hfv : [v].filter (fun w => w.code == k) = [] := by
        simp [Ne.symm hk]
      rw [if_neg hk, ih]
      unfold groupOf
      rw [List.filter_append, hfv, List.append_nil]

theorem keys_bump (v : Finding) (acc : List (String × RuleGroupAcc)) :
    (bump v acc).map Prod.fst =
      if v.code ∈ acc.map Prod.fst then acc.map Prod.fst
      else acc.map Prod.fst ++ [v.code] := by
  induction acc with
  | nil => simp [bump]
  | cons hd tl ih =>
    obtain ⟨k', g⟩ := hd
    by_cases h1 : k' = v.code
    · subst h1; simp [bump]
    · have h2 : ¬v.code = k' := fun hh => h1 hh.symm
      by_cases h3 : v.code ∈ tl.map Prod.fst <;>
        simp [bump, h1, h2, h3, ih]

theorem keys_nodup (vs : List Finding) :
    ((groupByRule vs).map Prod.fst).Nodup := by
  induction vs using List.reverseRecOn with
  | nil => simp [groupByRule]
  | append_singleton l v ih =>
    rw [groupByRule_concat, keys_bump]
    by_cases h : v.code ∈ (groupByRule l).map Prod.fst
    · simpa [h] using ih
    · simp only [h, if_false]
      refine List.nodup_append.mpr ⟨ih, List.nodup_singleton _, ?_⟩
      intro x hx hx'
      have : x = v.code := by simpa using hx'
      subst this
      exact h hx

theorem lookG_eq_of_mem :
    ∀ {acc : List (String × RuleGroupAcc)} {k : String} {g : RuleGroupAcc},
      (acc.map Prod.fst).Nodup → (k, g) ∈ acc → lookG acc k = some g := by
  intro acc
  induction acc with
  | nil => intro k g _ h; cases h
  | cons hd tl ih =>
    intro k g hnd hmem
    obtain ⟨k', g'⟩ := hd
    rcases List.mem_cons.mp hmem with heq | htl
    · injection heq with h1 h2
      subst h1; subst h2
      simp [lookG]
    · by_cases hk : k' = k
      · subst hk
        exfalso
        have h1 : k' ∈ List.map Prod.fst tl := List.mem_map_of_mem Prod.fst htl
        exact (List.nodup_cons.mp (by simpa using hnd)).1 h1
      · simp only [lookG, hk, if_false]
        exact ih (List.nodup_cons.mp (by simpa using hnd)).2 htl

theorem sum_counts_bump (v : Finding) (acc : List (String × RuleGroupAcc)) :
    ((bump v acc).map (fun e => e.2.count)).sum =
      ((acc.map (fun e => e.2.count)).sum) + 1 := by
  induction acc with
  | nil => simp [bump]
  | cons hd tl ih =>
    obtain ⟨k', g⟩ := hd
    by_cases h1 : k' = v.code <;> simp [bump, h1, ih] <;> omega

theorem sum_counts_groupByRule (vs : List Finding) :
    ((groupByRule vs).map (fun e => e.2.count)).sum = vs.length := by
  induction vs using List.reverseRecOn with
  | nil => rfl
  | append_singleton l v ih => rw [groupByRule_concat, sum_counts_bump, ih]; simp

theorem groupRel_iff (a b : String × RuleGroupAcc) :
    groupRel a b ↔
      (a.2.severity < b.2.severity ∨
        (a.2.severity = b.2.severity ∧ b.2.count ≤ a.2.count)) := by
  unfold groupRel cmpGroups
  split_ifs with h <;> omega

theorem entriesOrder_perm (l : List (String × RuleGroupAcc)) :
    List.Perm (entriesOrder l) l := by
  unfold entriesOrder
  exact ((List.perm_insertionSort idxRel _).append (List.Perm.refl _)).trans
    (List.filter_append_perm _ l)

theorem find_eq_head_filter {α : Type} (p : α → Bool) (l : List α) :
    l.find? p = (l.filter p).head? := by
  induction l with
  | nil => rfl
  | cons hd tl ih =>
    by_cases h : p hd = true
    · rw [List.find?_cons_of_pos _ h, List.filter_cons_of_pos h, List.head?_cons]
    · rw [List.find?_cons_of_neg _ h, List.filter_cons_of_neg h, ih]

/-- Every group in an emitted `ruleBreakdown` is built from the nonempty
list of findings sharing its rule code: count, first-encounter severity,
capped locations and the truncation marker all read off that list. -/
theorem mem_ruleBreakdown_char (p : String) (vs : List Finding) (g : RuleGroup)
    (hg : g ∈ (summarize p vs).ruleBreakdown) :
    ∃ w ws, vs.filter (fun v => v.code == g.rule) = w :: ws ∧
      g.count = ws.length + 1 ∧
      g.severity = severityLabel w.severity ∧
      g.locations = ((w :: ws).map mkLocation).take 5 ∧
      g.truncated =
        (if 5 < ws.length + 1 then some (toString (ws.length + 1 - 5) ++ " more")
         else none) := by
  obtain ⟨e, he, rfl⟩ := List.mem_map.mp hg
  have hmem : e ∈ groupByRule vs :=
    (entriesOrder_perm (groupByRule vs)).mem_iff.mp
      ((List.mem_insertionSort groupRel).mp he)
  obtain ⟨k, acc⟩ := e
  have hl : lookG (groupByRule vs) k = some acc :=
    lookG_eq_of_mem (keys_nodup vs) hmem
  rw [lookG_groupByRule] at hl
  unfold groupOf at hl
  cases hf : vs.filter (fun v => v.code == k) with
  | nil => rw [hf] at hl; cases hl
  | cons w ws =>
    rw [hf] at hl
    injection hl with hl
    subst hl
    refine ⟨w, ws, hf, rfl, rfl, rfl, ?_⟩
    simp [mkRuleGroup, List.length_map]

/-! Helper lemmas about the discovery traversal. -/

mutual

theorem processEntry_sound (dir : String) (e : FSEntry) (depth : Nat) (pth : String)
    (h : pth ∈ processEntry dir e depth) :
    ∃ d n, pth = joinPath d n ∧ isSpecFile n = true ∧
      strStartsWith n "." = false ∧ n ≠ "node_modules" := by
  rw [processEntry.eq_def] at h
  cases hc : (strStartsWith e.name "." || e.name == "node_modules") with
  | true => rw [hc] at h; simp at h
  | false =>
    rw [hc] at h
    simp only [Bool.false_eq_true, if_false] at h
    cases e with
    | file n =>
      have hb := Bool.or_eq_false_iff.mp hc
      simp only [FSEntry.name] at hb
      by_cases hs : isSpecFile n = true
      · simp only [hs, if_true, List.mem_singleton] at h
        exact ⟨dir, n, h, hs, hb.1, by simpa using hb.2⟩
      · simp [hs] at h
    | dir n sub => exact findSpecs_sound (joinPath dir n) (depth - 1) sub pth h
termination_by depth + sizeOf e

theorem findSpecs_sound (dir : String) (depth : Nat) (entries : List FSEntry) (pth : String)
    (h : pth ∈ findSpecs dir depth entries) :
    ∃ d n, pth = joinPath d n ∧ isSpecFile n = true ∧
      strStartsWith n "." = false ∧ n ≠ "node_modules" := by
  rw [findSpecs.eq_def] at h
  by_cases hd : depth = 0
  · simp [hd] at h
  · simp only [hd, if_false] at h
    cases entries with
    | nil => simp at h
    | cons e rest =>
      rcases List.mem_append.mp h with h1 | h2
      · exact processEntry_sound dir e depth pth h1
      · exact findSpecs_sound dir depth rest pth h2
termination_by depth + sizeOf entries

end

/-! Claim theorems. -/

/-- C1: in a run that emits a structured report, a file's `pass` is true
iff its findings contain no severity-0 finding (severity ≥ 1 never makes
`pass` false), `allPass` is the conjunction of all per-file `pass`
flags, and the exit code is 0 iff `allPass`, otherwise exactly 1. -/
theorem spectral_c1 (inputs : List (String × List Finding)) (p : String)
    (vs : List Finding) (hmem : (p, vs) ∈ inputs) :
    ((summarize p vs).pass = true ↔ vs.filter (fun v => v.severity == 0) = []) ∧
    summarize p vs ∈ (runReport inputs).1.results ∧
    (runReport inputs).1.allPass =
      ((runReport inputs).1.results.all (fun r => r.pass)) ∧
    ((runReport inputs).2 = 0 ↔ (runReport inputs).1.allPass = true) ∧
    ((runReport inputs).1.allPass = false → (runReport inputs).2 = 1) := by
  refine ⟨?_, ?_, rfl, ?_, ?_⟩
  · simp [summarize, List.length_eq_zero]
  · exact List.mem_map_of_mem (fun pv => summarize pv.1 pv.2) hmem
  · show (if (inputs.map fun pv => summarize pv.1 pv.2).all (fun r => r.pass) then 0 else 1) = 0 ↔ _
    cases hb : (inputs.map fun pv => summarize pv.1 pv.2).all (fun r => r.pass) <;>
      simp [runReport, hb]
  · intro hb
    show (if (inputs.map fun pv => summarize pv.1 pv.2).all (fun r => r.pass) then 0 else 1) = 1
    have : (inputs.map fun pv => summarize pv.1 pv.2).all (fun r => r.pass) = false := hb
    rw [this]
    simp

/-- C1 witness: a run over one file with a single severity-0 finding. -/
theorem spectral_c1_witness :
    ((summarize "a" [⟨"r", 0, [], "m", none⟩]).pass = true ↔
      ([(⟨"r", 0, [], "m", none⟩ : Finding)].filter (fun v => v.severity == 0)) = []) ∧
    summarize "a" [⟨"r", 0, [], "m", none⟩] ∈
      (runReport [("a", [⟨"r", 0, [], "m", none⟩])]).1.results ∧
    (runReport [("a", [⟨"r", 0, [], "m", none⟩])]).1.allPass =
      ((runReport [("a", [⟨"r", 0, [], "m", none⟩])]).1.results.all (fun r => r.pass)) ∧
    ((runReport [("a", [⟨"r", 0, [], "m", none⟩])]).2 = 0 ↔
      (runReport [("a", [⟨"r", 0, [], "m", none⟩])]).1.allPass = true) ∧
    ((runReport [("a", [⟨"r", 0, [], "m", none⟩])]).1.allPass = false →
      (runReport [("a", [⟨"r", 0, [], "m", none⟩])]).2 = 1) :=
  spectral_c1 [("a", [⟨"r", 0, [], "m", none⟩])] "a" [⟨"r", 0, [], "m", none⟩]
    (by decide)

/-- C2 counterexample: with a zero exit status and empty standard output
(not parseable JSON — `JSON.parse("")` throws), `lintSpec` silently
returns the empty findings list instead of propagating a failure, so the
claimed "fatal error iff no parseable output" equivalence fails. -/
theorem spectral_c2_counterexample :
    jsonParseStub "" = none ∧
    lintSpec jsonParseStub (ExecResult.ok "") = Except.ok [] :=
  ⟨rfl, rfl⟩

/-- C2 (amended): `lintSpec` returns the parsed findings whenever the
subprocess produced parseable JSON on stdout, even on a nonzero exit;
empty stdout on a zero exit is treated as an empty findings list (via
`raw || "[]"`); in every other no-parseable-output case (nonzero exit
with empty or unparseable stdout, failure to start, unparseable output
on zero exit) the error propagates, and a propagated error aborts the
whole pipeline with no structured report. -/
theorem spectral_c2 (parse : String → Option (List Finding)) :
    (∀ raw vs, raw ≠ "" → parse raw = some vs →
      lintSpec parse (ExecResult.ok raw) = Except.ok vs ∧
      lintSpec parse (ExecResult.failWithOutput raw) = Except.ok vs) ∧
    (parse "[]" = some [] → lintSpec parse (ExecResult.ok "") = Except.ok []) ∧
    (∀ raw, raw ≠ "" → parse raw = none →
      lintSpec parse (ExecResult.ok raw) = Except.error () ∧
      lintSpec parse (ExecResult.failWithOutput raw) = Except.error ()) ∧
    lintSpec parse (ExecResult.failWithOutput "") = Except.error () ∧
    lintSpec parse ExecResult.failNoStart = Except.error () ∧
    (∀ inputs p r, (p, r) ∈ inputs → lintSpec parse r = Except.error () →
      runPipeline parse inputs = Except.error ()) := by
  refine ⟨?_, ?_, ?_, ?_, rfl, ?_⟩
  · intro raw vs hne hp
    constructor <;> simp [lintSpec, hne, hp]
  · intro hp
    simp [lintSpec, hp]
  · intro raw hne hp
    constructor <;> simp [lintSpec, hne, hp]
  · simp [lintSpec]
  · intro inputs p r
    induction inputs with
    | nil => intro hmem _; cases hmem
    | cons hd tl ih =>
      intro hmem herr
      rcases List.mem_cons.mp hmem with heq | htl
      · have hhd : lintSpec parse hd.2 = Except.error () := by
          rw [show hd.2 = r by rw [← heq]]
          exact herr
        simp [runPipeline, collectFindings, hhd, Except.map]
      · cases hres : lintSpec parse hd.2 with
        | error e => simp [runPipeline, collectFindings, hres, Except.map]
        | ok vs0 =>
          have htail : collectFindings parse tl = Except.error () := by
            rcases hcf : collectFindings parse tl with e | pairs
            · rfl
            · exfalso
              have hrun := ih htl herr
              simp [runPipeline, hcf, Except.map] at hrun
          simp [runPipeline, collectFindings, hres, htail, Except.map]

/-- C2 witness: concrete instances of the amended behavior, with the
stub parser: findings returned on nonzero exit with parseable output,
and the error propagated on nonzero exit with empty output. -/
theorem spectral_c2_witness :
    lintSpec jsonParseStub (ExecResult.failWithOutput "[]") = Except.ok [] ∧
    lintSpec jsonParseStub (ExecResult.failWithOutput "") = Except.error () ∧
    runPipeline jsonParseStub [("s", ExecResult.failNoStart)] = Except.error () :=
  ⟨((spectral_c2 jsonParseStub).1 "[]" [] (by decide) (by decide)).2,
   (spectral_c2 jsonParseStub).2.2.2.1,
   (spectral_c2 jsonParseStub).2.2.2.2.2 [("s", ExecResult.failNoStart)] "s"
     ExecResult.failNoStart (by decide) ((spectral_c2 jsonParseStub).2.2.2.2.1)⟩

/-- C3 counterexample: with zero discovered specs the process prints no
structured document at all (it exits via `process.exit(0)` after the
stderr diagnostic), contradicting the claimed
`{allPass: true, results: []}` on standard output. -/
theorem spectral_c3_counterexample :
    (mainRun []).stdoutDoc = none ∧
    (mainRun []).stdoutDoc ≠ some { allPass := true, results := [] } ∧
    (mainRun []).exitCode = 0 ∧
    (mainRun []).usedStderrHint = true := by
  refine ⟨rfl, ?_, rfl, rfl⟩
  decide

/-- C3 (amended): with zero discovered specs the process exits 0 and
sends the diagnostic to the error channel, but prints nothing to
standard output — no structured document is emitted. -/
theorem spectral_c3 :
    mainRun [] = { stdoutDoc := none, usedStderrHint := true, exitCode := 0 } :=
  rfl

/-- C4: every emitted rule group lists at most 5 locations; when the
group has more than 5 findings the `truncated` marker carries exactly
`group size - 5`, and otherwise it is absent. -/
theorem spectral_c4 (p : String) (vs : List Finding) (g : RuleGroup)
    (hg : g ∈ (summarize p vs).ruleBreakdown) :
    g.locations.length ≤ 5 ∧
    (5 < g.count → g.truncated = some (toString (g.count - 5) ++ " more")) ∧
    (g.count ≤ 5 → g.truncated = none) := by
  obtain ⟨w, ws, hf, hcount, hsev, hloc, htr⟩ := mem_ruleBreakdown_char p vs g hg
  refine ⟨?_, ?_, ?_⟩
  · rw [hloc]
    simp
  · intro h5
    rw [hcount] at h5 ⊢
    rw [htr, if_pos h5]
  · intro h5
    rw [hcount] at h5
    rw [htr, if_neg (by omega)]

/-- C4 witness: six findings of one rule give 5 listed locations and a
"1 more" truncation marker. -/
theorem spectral_c4_witness :
    (⟨"r", "error", 6,
        [⟨"a", none, "m"⟩, ⟨"a", none, "m"⟩, ⟨"a", none, "m"⟩, ⟨"a", none, "m"⟩,
         ⟨"a", none, "m"⟩], some "1 more"⟩ : RuleGroup).locations.length ≤ 5 ∧
    (5 < (⟨"r", "error", 6,
        [⟨"a", none, "m"⟩, ⟨"a", none, "m"⟩, ⟨"a", none, "m"⟩, ⟨"a", none, "m"⟩,
         ⟨"a", none, "m"⟩], some "1 more"⟩ : RuleGroup).count →
      (⟨"r", "error", 6,
        [⟨"a", none, "m"⟩, ⟨"a", none, "m"⟩, ⟨"a", none, "m"⟩, ⟨"a", none, "m"⟩,
         ⟨"a", none, "m"⟩], some "1 more"⟩ : RuleGroup).truncated =
        some (toString ((⟨"r", "error", 6,
          [⟨"a", none, "m"⟩, ⟨"a", none, "m"⟩, ⟨"a", none, "m"⟩, ⟨"a", none, "m"⟩,
           ⟨"a", none, "m"⟩], some "1 more"⟩ : RuleGroup).count - 5) ++ " more")) ∧
    ((⟨"r", "error", 6,
        [⟨"a", none, "m"⟩, ⟨"a", none, "m"⟩, ⟨"a", none, "m"⟩, ⟨"a", none, "m"⟩,
         ⟨"a", none, "m"⟩], some "1 more"⟩ : RuleGroup).count ≤ 5 →
      (⟨"r", "error", 6,
        [⟨"a", none, "m"⟩, ⟨"a", none, "m"⟩, ⟨"a", none, "m"⟩, ⟨"a", none, "m"⟩,
         ⟨"a", none, "m"⟩], some "1 more"⟩ : RuleGroup).truncated = none) :=
  spectral_c4 "s"
    [⟨"r", 0, ["a"], "m", none⟩, ⟨"r", 0, ["a"], "m", none⟩,
     ⟨"r", 0, ["a"], "m", none⟩, ⟨"r", 0, ["a"], "m", none⟩,
     ⟨"r", 0, ["a"], "m", none⟩, ⟨"r", 0, ["a"], "m", none⟩] _ (by decide)

/-- C5 counterexample: rule codes `"10"` and `"2"` are array-index-like
keys, so `Object.entries` enumerates `"2"` before `"10"` although
`"10"` was encountered first; with both groups tied on severity and
count, the stable sort keeps that enumeration order and the program
emits `"2"` first — not first-encounter order as the claim states. -/
theorem spectral_c5_counterexample :
    ((summarize "s" [⟨"10", 1, [], "m", none⟩, ⟨"2", 1, [], "m", none⟩]).ruleBreakdown.map
        (fun g => g.rule)) = ["2", "10"] ∧
    (groupByRule [⟨"10", 1, [], "m", none⟩, ⟨"2", 1, [], "m", none⟩]).map Prod.fst =
      ["10", "2"] := by
  constructor <;> decide

/-- C5 (amended): the emitted `ruleBreakdown` is the sorted groups; the
sort is by severity ascending then count descending (severity-0 groups
strictly before severity-1 before severity-2 before severity-3, counts
non-increasing within a severity tier), and groups tied on both keys
keep the JS object key enumeration order of the grouping object —
array-index-like rule codes first in ascending numeric order, then the
remaining rules in first-encounter order (the sort itself is stable). -/
theorem spectral_c5 (p : String) (vs : List Finding) (a b : String × RuleGroupAcc)
    (hsev : a.2.severity = b.2.severity) (hcnt : a.2.count = b.2.count)
    (hsub : List.Sublist [a, b] (entriesOrder (groupByRule vs))) :
    (summarize p vs).ruleBreakdown = (sortedGroups vs).map mkRuleGroup ∧
    (sortedGroups vs).Pairwise (fun x y =>
      x.2.severity ≤ y.2.severity ∧
      (x.2.severity = y.2.severity → y.2.count ≤ x.2.count)) ∧
    List.Sublist [a, b] (sortedGroups vs) := by
  refine ⟨rfl, ?_, ?_⟩
  · have hs := List.sorted_insertionSort groupRel (entriesOrder (groupByRule vs))
    refine hs.imp ?_
    intro x y hxy
    have h := (groupRel_iff x y).mp hxy
    exact ⟨by omega, fun hh => by omega⟩
  · exact List.pair_sublist_insertionSort
      ((groupRel_iff a b).mpr (Or.inr ⟨hsev, by omega⟩)) hsub

/-- C5 witness: the tied index-like rules `"2"` and `"10"` keep their
ascending enumeration order through the sort. -/
theorem spectral_c5_witness :
    (summarize "s" [⟨"10", 1, [], "m", none⟩, ⟨"2", 1, [], "m", none⟩]).ruleBreakdown =
      (sortedGroups [⟨"10", 1, [], "m", none⟩, ⟨"2", 1, [], "m", none⟩]).map mkRuleGroup ∧
    (sortedGroups [⟨"10", 1, [], "m", none⟩, ⟨"2", 1, [], "m", none⟩]).Pairwise
      (fun x y =>
        x.2.severity ≤ y.2.severity ∧
        (x.2.severity = y.2.severity → y.2.count ≤ x.2.count)) ∧
    List.Sublist
      [("2", ⟨1, 1, [⟨"", none, "m"⟩]⟩), ("10", ⟨1, 1, [⟨"", none, "m"⟩]⟩)]
      (sortedGroups [⟨"10", 1, [], "m", none⟩, ⟨"2", 1, [], "m", none⟩]) :=
  spectral_c5 "s" [⟨"10", 1, [], "m", none⟩, ⟨"2", 1, [], "m", none⟩]
    ("2", ⟨1, 1, [⟨"", none, "m"⟩]⟩) ("10", ⟨1, 1, [⟨"", none, "m"⟩]⟩)
    rfl rfl (by decide)

/-- C6: each rule group's `count` equals the number of findings sharing
its rule code, and the `counts` object holds the number of severity-0
findings, the number of severity-1 findings, and the total number of
findings. -/
theorem spectral_c6 (p : String) (vs : List Finding) (g : RuleGroup)
    (hg : g ∈ (summarize p vs).ruleBreakdown) :
    g.count = (vs.filter (fun v => v.code == g.rule)).length ∧
    (summarize p vs).counts.errors = (vs.filter (fun v => v.severity == 0)).length ∧
    (summarize p vs).counts.warnings = (vs.filter (fun v => v.severity == 1)).length ∧
    (summarize p vs).counts.total = vs.length := by
  obtain ⟨w, ws, hf, hcount, hsev, hloc, htr⟩ := mem_ruleBreakdown_char p vs g hg
  refine ⟨?_, rfl, rfl, rfl⟩
  rw [hcount, hf]
  simp

/-- C6 witness: 3 errors of one rule and 1 warning of another. -/
theorem spectral_c6_witness :
    (⟨"operation-operationId", "error", 3,
        [⟨"", none, "m"⟩, ⟨"", none, "m"⟩, ⟨"", none, "m"⟩], none⟩ : RuleGroup).count =
      ([(⟨"operation-operationId", 0, [], "m", none⟩ : Finding),
        ⟨"operation-operationId", 0, [], "m", none⟩,
        ⟨"operation-operationId", 0, [], "m", none⟩,
        ⟨"operation-tags", 1, [], "m", none⟩].filter
          (fun v => v.code ==
            (⟨"operation-operationId", "error", 3,
              [⟨"", none, "m"⟩, ⟨"", none, "m"⟩, ⟨"", none, "m"⟩], none⟩ : RuleGroup).rule)).length ∧
    (summarize "s"
      [⟨"operation-operationId", 0, [], "m", none⟩,
       ⟨"operation-operationId", 0, [], "m", none⟩,
       ⟨"operation-operationId", 0, [], "m", none⟩,
       ⟨"operation-tags", 1, [], "m", none⟩]).counts.errors =
      ([(⟨"operation-operationId", 0, [], "m", none⟩ : Finding),
        ⟨"operation-operationId", 0, [], "m", none⟩,
        ⟨"operation-operationId", 0, [], "m", none⟩,
        ⟨"operation-tags", 1, [], "m", none⟩].filter (fun v => v.severity == 0)).length ∧
    (summarize "s"
      [⟨"operation-operationId", 0, [], "m", none⟩,
       ⟨"operation-operationId", 0, [], "m", none⟩,
       ⟨"operation-operationId", 0, [], "m", none⟩,
       ⟨"operation-tags", 1, [], "m", none⟩]).counts.warnings =
      ([(⟨"operation-operationId", 0, [], "m", none⟩ : Finding),
        ⟨"operation-operationId", 0, [], "m", none⟩,
        ⟨"operation-operationId", 0, [], "m", none⟩,
        ⟨"operation-tags", 1, [], "m", none⟩].filter (fun v => v.severity == 1)).length ∧
    (summarize "s"
      [⟨"operation-operationId", 0, [], "m", none⟩,
       ⟨"operation-operationId", 0, [], "m", none⟩,
       ⟨"operation-operationId", 0, [], "m", none⟩,
       ⟨"operation-tags", 1, [], "m", none⟩]).counts.total =
      ([(⟨"operation-operationId", 0, [], "m", none⟩ : Finding),
        ⟨"operation-operationId", 0, [], "m", none⟩,
        ⟨"operation-operationId", 0, [], "m", none⟩,
        ⟨"operation-tags", 1, [], "m", none⟩] : List Finding).length :=
  spectral_c6 "s"
    [⟨"operation-operationId", 0, [], "m", none⟩,
     ⟨"operation-operationId", 0, [], "m", none⟩,
     ⟨"operation-operationId", 0, [], "m", none⟩,
     ⟨"operation-tags", 1, [], "m", none⟩] _ (by decide)

/-- C7 counterexample: the code's `ya?ml` patterns also accept the
`.yml` spellings, so "candidate iff one of the four listed patterns"
fails: `a.openapi.yml` is discovered as a candidate but matches none of
the four spec-worded patterns. -/
theorem spectral_c7_counterexample :
    isSpecFile "a.openapi.yml" = true ∧
    specWordedPatterns "a.openapi.yml" = false ∧
    findSpecs "." 3 [FSEntry.file "a.openapi.yml"] = ["./a.openapi.yml"] := by
  refine ⟨by decide, by decide, ?_⟩
  simp only [findSpecs, processEntry]
  decide

/-- C7 (amended): a traversal candidate's name matches one of six
patterns — ends with `.openapi.yaml`, `.openapi.yml` or
`.openapi.json`, or is exactly `openapi.yaml`, `openapi.yml` or
`openapi.json` (case-sensitive, anchored); entries whose name starts
with `.` or equals `node_modules` are skipped entirely; a non-skipped
plain file is returned iff it matches; and every path the traversal
returns is such a non-skipped matching file. -/
theorem spectral_c7 :
    (∀ s, isSpecFile s = true ↔
      (strEndsWith s ".openapi.yaml" = true ∨ strEndsWith s ".openapi.yml" = true ∨
        strEndsWith s ".openapi.json" = true ∨ s = "openapi.yaml" ∨
        s = "openapi.yml" ∨ s = "openapi.json")) ∧
    (∀ dir e depth,
      (strStartsWith (FSEntry.name e) "." = true ∨ FSEntry.name e = "node_modules") →
      processEntry dir e depth = []) ∧
    (∀ dir n depth, strStartsWith n "." = false → n ≠ "node_modules" →
      processEntry dir (FSEntry.file n) depth =
        if isSpecFile n then [joinPath dir n] else []) ∧
    (∀ dir depth entries pth, pth ∈ findSpecs dir depth entries →
      ∃ d n, pth = joinPath d n ∧ isSpecFile n = true ∧
        strStartsWith n "." = false ∧ n ≠ "node_modules") := by
  refine ⟨?_, ?_, ?_, ?_⟩
  · intro s
    simp [isSpecFile, Bool.or_eq_true, or_assoc]
  · intro dir e depth hcond
    have hc : (strStartsWith (FSEntry.name e) "." || FSEntry.name e == "node_modules") = true := by
      rcases hcond with h | h <;> simp [h]
    rw [processEntry.eq_def, if_pos hc]
  · intro dir n depth h1 h2
    have hb : (n == "node_modules") = false := by simpa using h2
    rw [processEntry.eq_def]
    simp only [FSEntry.name, h1, hb, Bool.or_self, Bool.false_eq_true, if_false]
  · intro dir depth entries pth h
    exact findSpecs_sound dir depth entries pth h

/-- C7 witness: a hidden file is skipped; a non-skipped `openapi.json`
is returned as a candidate. -/
theorem spectral_c7_witness :
    processEntry "." (FSEntry.file ".hidden") 3 = [] ∧
    processEntry "." (FSEntry.file "openapi.json") 3 =
      (if isSpecFile "openapi.json" then [joinPath "." "openapi.json"] else []) ∧
    isSpecFile "x.openapi.json" = true :=
  ⟨spectral_c7.2.1 "." (FSEntry.file ".hidden") 3 (Or.inl (by decide)),
   spectral_c7.2.2.1 "." "openapi.json" 3 (by decide) (by decide),
   (spectral_c7.1 "x.openapi.json").mpr (Or.inr (Or.inr (Or.inl (by decide))))⟩

/-- C8: each emitted group's severity label comes from the first
finding encountered for that rule, mapped 0 to "error", 1 to "warning",
2 to "info", 3 to "hint". -/
theorem spectral_c8 (p : String) (vs : List Finding) (g : RuleGroup)
    (hg : g ∈ (summarize p vs).ruleBreakdown) :
    ∃ w, vs.find? (fun v => v.code == g.rule) = some w ∧
      g.severity = severityLabel w.severity ∧
      (w.severity = 0 → g.severity = "error") ∧
      (w.severity = 1 → g.severity = "warning") ∧
      (w.severity = 2 → g.severity = "info") ∧
      (w.severity = 3 → g.severity = "hint") := by
  obtain ⟨w, ws, hf, hcount, hsev, hloc, htr⟩ := mem_ruleBreakdown_char p vs g hg
  refine ⟨w, ?_, hsev, ?_, ?_, ?_, ?_⟩
  · rw [find_eq_head_filter, hf]
    rfl
  all_goals intro h; rw [hsev]; simp [severityLabel, h]

/-- C8 witness: a single severity-2 finding labels its group "info". -/
theorem spectral_c8_witness :
    ∃ w, ([(⟨"r", 2, [], "m", none⟩ : Finding)].find?
        (fun v => v.code ==
          (⟨"r", "info", 1, [⟨"", none, "m"⟩], none⟩ : RuleGroup).rule)) = some w ∧
      (⟨"r", "info", 1, [⟨"", none, "m"⟩], none⟩ : RuleGroup).severity =
        severityLabel w.severity ∧
      (w.severity = 0 →
        (⟨"r", "info", 1, [⟨"", none, "m"⟩], none⟩ : RuleGroup).severity = "error") ∧
      (w.severity = 1 →
        (⟨"r", "info", 1, [⟨"", none, "m"⟩], none⟩ : RuleGroup).severity = "warning") ∧
      (w.severity = 2 →
        (⟨"r", "info", 1, [⟨"", none, "m"⟩], none⟩ : RuleGroup).severity = "info") ∧
      (w.severity = 3 →
        (⟨"r", "info", 1, [⟨"", none, "m"⟩], none⟩ : RuleGroup).severity = "hint") :=
  spectral_c8 "s" [⟨"r", 2, [], "m", none⟩] _ (by decide)

/-- C9: the group counts in `ruleBreakdown` sum to `counts.total`,
`counts.errors + counts.warnings ≤ counts.total`, and every group lists
exactly `min(count, 5)` locations. -/
theorem spectral_c9 (p : String) (vs : List Finding) :
    ((summarize p vs).ruleBreakdown.map (fun g => g.count)).sum =
      (summarize p vs).counts.total ∧
    (summarize p vs).counts.errors + (summarize p vs).counts.warnings ≤
      (summarize p vs).counts.total ∧
    ∀ g ∈ (summarize p vs).ruleBreakdown, g.locations.length = min g.count 5 := by
  refine ⟨?_, ?_, ?_⟩
  · show ((List.map mkRuleGroup (sortedGroups vs)).map (fun g => g.count)).sum = vs.length
    rw [List.map_map]
    have h1 : ((fun g => RuleGroup.count g) ∘ mkRuleGroup) =
        (fun e : String × RuleGroupAcc => e.2.count) := rfl
    rw [h1]
    calc ((sortedGroups vs).map (fun e => e.2.count)).sum
        = ((entriesOrder (groupByRule vs)).map (fun e => e.2.count)).sum :=
          ((List.perm_insertionSort groupRel (entriesOrder (groupByRule vs))).map _).sum_eq
      _ = ((groupByRule vs).map (fun e => e.2.count)).sum :=
          ((entriesOrder_perm (groupByRule vs)).map _).sum_eq
      _ = vs.length := sum_counts_groupByRule vs
  · show (vs.filter (fun v => v.severity == 0)).length +
        (vs.filter (fun v => v.severity == 1)).length ≤ vs.length
    induction vs with
    | nil => simp
    | cons hd tl ih =>
      by_cases h0 : hd.severity = 0
      · simp only [List.filter_cons, h0]
        simp
        omega
      · by_cases h1 : hd.severity = 1 <;>
          simp only [List.filter_cons, h0, h1] <;> simp [h0, h1] <;> omega
  · intro g hg
    obtain ⟨w, ws, hf, hcount, hsev, hloc, htr⟩ := mem_ruleBreakdown_char p vs g hg
    rw [hloc, hcount, List.length_take, List.length_map]
    simp [Nat.min_comm]

/-- C9 witness: a group of two findings lists min(2, 5) = 2 locations. -/
theorem spectral_c9_witness :
    (⟨"r", "error", 2, [⟨"", none, "m"⟩, ⟨"", none, "m"⟩], none⟩ : RuleGroup).locations.length =
      min (⟨"r", "error", 2, [⟨"", none, "m"⟩, ⟨"", none, "m"⟩], none⟩ : RuleGroup).count 5 :=
  (spectral_c9 "s" [⟨"r", 0, [], "m", none⟩, ⟨"r", 0, [], "m", none⟩]).2.2 _ (by decide)

/-- C10: the location recorded for a finding joins its path segments
with ".", converts a present 0-based `range.start.line` to the 1-based
`line` and records an explicit null (`none`) when it is absent, and is
placed in the accumulator group of the finding's rule. -/
theorem spectral_c10 (vs : List Finding) (v : Finding) (hv : v ∈ vs) :
    (mkLocation v).path = String.intercalate "." v.path ∧
    (∀ n, v.rangeStartLine = some n → (mkLocation v).line = some (n + 1)) ∧
    (v.rangeStartLine = none → (mkLocation v).line = none) ∧
    ∃ g, lookG (groupByRule vs) v.code = some g ∧ mkLocation v ∈ g.locations := by
  refine ⟨rfl, ?_, ?_, ?_⟩
  · intro n hn
    simp [mkLocation, hn]
  · intro hn
    simp [mkLocation, hn]
  · have hvf : v ∈ vs.filter (fun w => w.code == v.code) :=
      List.mem_filter.mpr ⟨hv, by simp⟩
    cases hf : vs.filter (fun w => w.code == v.code) with
    | nil => rw [hf] at hvf; cases hvf
    | cons w ws =>
      refine ⟨⟨(w :: ws).length, w.severity, (w :: ws).map mkLocation⟩, ?_, ?_⟩
      · rw [lookG_groupByRule]
        unfold groupOf
        rw [hf]
      · rw [hf] at hvf
        exact List.mem_map_of_mem mkLocation hvf

/-- C10 witness: a finding with path segments and 0-based line 3 yields
location path "a.b" and 1-based line 4, inside its rule's group. -/
theorem spectral_c10_witness :
    (mkLocation ⟨"r", 0, ["a", "b"], "m", some 3⟩).path =
      String.intercalate "." ["a", "b"] ∧
    (mkLocation ⟨"r", 0, ["a", "b"], "m", some 3⟩).line = some 4 ∧
    ∃ g, lookG (groupByRule [⟨"r", 0, ["a", "b"], "m", some 3⟩]) "r" = some g ∧
      mkLocation ⟨"r", 0, ["a", "b"], "m", some 3⟩ ∈ g.locations :=
  ⟨(spectral_c10 [⟨"r", 0, ["a", "b"], "m", some 3⟩] ⟨"r", 0, ["a", "b"], "m", some 3⟩
      (by decide)).1,
   (spectral_c10 [⟨"r", 0, ["a", "b"], "m", some 3⟩] ⟨"r", 0, ["a", "b"], "m", some 3⟩
      (by decide)).2.1 3 rfl,
   (spectral_c10 [⟨"r", 0, ["a", "b"], "m", some 3⟩] ⟨"r", 0, ["a", "b"], "m", some 3⟩
      (by decide)).2.2.2⟩

end SpectralReport
